import Mathlib

/-!
Verification of the Code Intelligence Subsystem of MyIDLE (`src/main.py`):
the `CodeAnalyzer` metrics engine, the educational-hints rule chain of
`VSCodeLikeIDE.show_educational_hints`, and the completion-session logic of
`VSCodeLikeIDE.show_completions` / `_navigate_completions` /
`insert_completion`.

The Python code is shallowly embedded: Python `str` values are modelled as
`List Char`, the fragment of the CPython abstract-grammar that the analysed
constructs inspect is modelled as the inductive types `Expr` / `Stmt` /
`Module`, and each analysed method becomes a Lean function over those types.
-/

namespace MyIDLE

/-! ### Python string primitives

The source calls `str.splitlines`, `str.split`, `str.strip`,
`str.startswith`, the `in` substring test, `str.isalnum`, and truthiness of
strings; these CPython primitives are embedded here over `List Char`.
-/

/-- Characters treated as whitespace by `str.strip()` (ASCII range; the
Unicode-only space characters do not occur in any input considered here). -/
def pyIsSpace (c : Char) : Bool :=
  c = ' ' || c = '\t' || c = '\n' || c = '\r' || c = '\x0b' || c = '\x0c'

/-- The line-boundary characters recognised by `str.splitlines()`. -/
def isLineBreakChar (c : Char) : Bool :=
  c = '\n' || c = '\r' || c = '\x0b' || c = '\x0c' || c = '\x1c' ||
  c = '\x1d' || c = '\x1e' || c = '\x85' || c = '\u2028' || c = '\u2029'

/-- Accumulator worker for `pySplitlines`; `acc` holds the current line in
reverse.  The pair `"\r\n"` counts as a single boundary. -/
def pySplitlinesAux : List Char → List Char → List (List Char)
  | acc, [] => if acc.isEmpty then [] else [acc.reverse]
  | acc, c :: rest =>
    if c = '\r' ∧ rest.head? = some '\n' then
      acc.reverse :: pySplitlinesAux [] rest.tail
    else if isLineBreakChar c then acc.reverse :: pySplitlinesAux [] rest
    else pySplitlinesAux (c :: acc) rest
termination_by _ l => l.length
decreasing_by
  · simp
    cases rest with
    | nil => simp
    | cons d l => simp [List.tail]; omega
  · simp
  · simp

/-- `s.splitlines()`: the list of lines of `s`; a trailing line boundary does
not produce a final empty line, and the empty string has no lines. -/
def pySplitlines (s : List Char) : List (List Char) :=
  pySplitlinesAux [] s

/-- `s.split("\n")`: splitting on the newline character; every newline
separates two (possibly empty) fields, so the result is never empty. -/
def pySplitNl : List Char → List (List Char)
  | [] => [[]]
  | c :: rest =>
    if c = '\n' then [] :: pySplitNl rest
    else
      match pySplitNl rest with
      | [] => [[c]]
      | h :: t => (c :: h) :: t

/-- `s.strip()`: remove leading and trailing whitespace. -/
def pyStrip (s : List Char) : List Char :=
  ((s.dropWhile pyIsSpace).reverse.dropWhile pyIsSpace).reverse

/-- The Python substring test `pat in s`. -/
def containsSub (pat : List Char) : List Char → Bool
  | [] => pat.isPrefixOf []
  | c :: rest => pat.isPrefixOf (c :: rest) || containsSub pat rest

/-- `c.isalnum() or c in "_"`, the identifier-character test used by the
word-boundary scan of `insert_completion` (ASCII range). -/
def isIdentChar (c : Char) : Bool :=
  c.isAlphanum || c = '_'

/-! ### The abstract-syntax fragment

`ast.parse` produces a `Module` whose body is a list of statements.  The
constructors below cover exactly the node classes that `CodeAnalyzer` and
`show_educational_hints` test with `isinstance`, plus enough carrier
constructors (`exprStmt`, `assign`, `passStmt`, `returnStmt`, expression
forms) to build arbitrary bodies.  `ExceptHandler` is a node of its own in
the CPython grammar and is embedded as a statement constructor that occurs
in the `handlers` field of `tryStmt`. -/

inductive Expr where
  | boolOp (values : List Expr)
  | strConst (s : List Char)
  | numConst (n : Int)
  | name (id : String)
  | call (func : Expr) (args : List Expr)

inductive Stmt where
  | functionDef (name : String) (body : List Stmt)
  | classDef (name : String) (body : List Stmt)
  | ifStmt (test : Expr) (body : List Stmt) (orelse : List Stmt)
  | whileStmt (test : Expr) (body : List Stmt)
  | forStmt (target : Expr) (iter : Expr) (body : List Stmt) (orelse : List Stmt)
  | tryStmt (body : List Stmt) (handlers : List Stmt) (orelse : List Stmt)
      (finalbody : List Stmt)
  | exceptHandler (body : List Stmt)
  | withStmt (items : List Expr) (body : List Stmt)
  | assertStmt (test : Expr)
  | importStmt (names : List String)
  | importFrom (module : String) (names : List String)
  | exprStmt (value : Expr)
  | assign (target : Expr) (value : Expr)
  | passStmt
  | returnStmt (value : Option Expr)

/-- The root node produced by `ast.parse`. -/
structure Module where
  body : List Stmt

end MyIDLE

namespace MyIDLE

/-! ### Node enumeration (`ast.walk`) -/

/-- The statement children of a statement, in the field order used by
`ast.iter_child_nodes`.  Expression children are omitted from the
enumeration: no expression node is a `FunctionDef`, `ClassDef`, `Import` or
docstring carrier, so their omission changes no count computed from the
enumeration (expressions are traversed by the complexity score, which is
defined recursively below). -/
def childStmts : Stmt → List Stmt
  | .functionDef _ b => b
  | .classDef _ b => b
  | .ifStmt _ b e => b ++ e
  | .whileStmt _ b => b
  | .forStmt _ _ b e => b ++ e
  | .tryStmt b h e f => b ++ h ++ e ++ f
  | .exceptHandler b => b
  | .withStmt _ b => b
  | .assertStmt _ => []
  | .importStmt _ => []
  | .importFrom _ _ => []
  | .exprStmt _ => []
  | .assign _ _ => []
  | .passStmt => []
  | .returnStmt _ => []

mutual

/-- Number of statement nodes in a statement's subtree (used as the
termination measure of the breadth-first enumeration). -/
def stmtSize : Stmt → Nat
  | .functionDef _ b => 1 + stmtListSize b
  | .classDef _ b => 1 + stmtListSize b
  | .ifStmt _ b e => 1 + stmtListSize b + stmtListSize e
  | .whileStmt _ b => 1 + stmtListSize b
  | .forStmt _ _ b e => 1 + stmtListSize b + stmtListSize e
  | .tryStmt b h e f =>
      1 + stmtListSize b + stmtListSize h + stmtListSize e + stmtListSize f
  | .exceptHandler b => 1 + stmtListSize b
  | .withStmt _ b => 1 + stmtListSize b
  | .assertStmt _ => 1
  | .importStmt _ => 1
  | .importFrom _ _ => 1
  | .exprStmt _ => 1
  | .assign _ _ => 1
  | .passStmt => 1
  | .returnStmt _ => 1

/-- Total number of statement nodes in the subtrees of a list of statements. -/
def stmtListSize : List Stmt → Nat
  | [] => 0
  | s :: l => stmtSize s + stmtListSize l

end

/-- `ast.walk`: enumerates the queued nodes and all their descendants,
breadth-first (CPython keeps a `collections.deque`, pops from the left and
extends with each popped node's children on the right). -/
def walkBFS : List Stmt → List Stmt
  | [] => []
  | s :: rest => s :: walkBFS (rest ++ childStmts s)
termination_by l => stmtListSize l
decreasing_by
  have happ : ∀ l₁ l₂ : List Stmt,
      stmtListSize (l₁ ++ l₂) = stmtListSize l₁ + stmtListSize l₂ := by
    intro l₁ l₂
    induction l₁ with
    | nil => simp [stmtListSize]
    | cons t l ih => simp [stmtListSize, ih]; omega
  have hchild : stmtListSize (childStmts s) < stmtSize s := by
    cases s <;> simp [childStmts, stmtSize, stmtListSize, happ]
    all_goals omega
  simp [stmtListSize, happ]
  omega

mutual

/-- Preorder (document-order) enumeration of a statement's subtree. -/
def walkPre : Stmt → List Stmt
  | .functionDef n b => .functionDef n b :: walkPreList b
  | .classDef n b => .classDef n b :: walkPreList b
  | .ifStmt t b e => .ifStmt t b e :: (walkPreList b ++ walkPreList e)
  | .whileStmt t b => .whileStmt t b :: walkPreList b
  | .forStmt tg it b e => .forStmt tg it b e :: (walkPreList b ++ walkPreList e)
  | .tryStmt b h e f =>
      .tryStmt b h e f ::
        (walkPreList b ++ walkPreList h ++ walkPreList e ++ walkPreList f)
  | .exceptHandler b => .exceptHandler b :: walkPreList b
  | .withStmt i b => .withStmt i b :: walkPreList b
  | .assertStmt t => [.assertStmt t]
  | .importStmt ns => [.importStmt ns]
  | .importFrom m ns => [.importFrom m ns]
  | .exprStmt v => [.exprStmt v]
  | .assign t v => [.assign t v]
  | .passStmt => [.passStmt]
  | .returnStmt v => [.returnStmt v]

/-- Preorder enumeration of the subtrees of a list of statements. -/
def walkPreList : List Stmt → List Stmt
  | [] => []
  | s :: l => walkPre s ++ walkPreList l

end

end MyIDLE

namespace MyIDLE

/-! ### `CodeAnalyzer._calculate_complexity`

The method walks every node of the tree and accumulates
`isinstance(node, (If, While, For, Try, ExceptHandler, With, Assert))` as 1
point and `isinstance(node, BoolOp)` as `len(node.values) - 1` points.  Each
node is visited exactly once and addition is commutative, so the walk-order
accumulation below is written as a recursive sum over the tree; expression
subtrees are traversed because `ast.walk` also yields expression nodes.
(`len(node.values) - 1` is truncated subtraction here; a CPython `BoolOp`
always carries at least two operands, where the two subtractions agree.) -/

mutual

/-- Complexity points contributed by an expression's subtree. -/
def exprComplexity : Expr → Nat
  | .boolOp values => (values.length - 1) + exprListComplexity values
  | .strConst _ => 0
  | .numConst _ => 0
  | .name _ => 0
  | .call f args => exprComplexity f + exprListComplexity args

/-- Complexity points contributed by a list of expressions. -/
def exprListComplexity : List Expr → Nat
  | [] => 0
  | e :: es => exprComplexity e + exprListComplexity es

end

mutual

/-- Complexity points contributed by a statement's subtree. -/
def stmtComplexity : Stmt → Nat
  | .functionDef _ b => stmtListComplexity b
  | .classDef _ b => stmtListComplexity b
  | .ifStmt t b e => 1 + exprComplexity t + stmtListComplexity b + stmtListComplexity e
  | .whileStmt t b => 1 + exprComplexity t + stmtListComplexity b
  | .forStmt tg it b e =>
      1 + exprComplexity tg + exprComplexity it + stmtListComplexity b +
        stmtListComplexity e
  | .tryStmt b h e f =>
      1 + stmtListComplexity b + stmtListComplexity h + stmtListComplexity e +
        stmtListComplexity f
  | .exceptHandler b => 1 + stmtListComplexity b
  | .withStmt items b => 1 + exprListComplexity items + stmtListComplexity b
  | .assertStmt t => 1 + exprComplexity t
  | .importStmt _ => 0
  | .importFrom _ _ => 0
  | .exprStmt v => exprComplexity v
  | .assign t v => exprComplexity t + exprComplexity v
  | .passStmt => 0
  | .returnStmt none => 0
  | .returnStmt (some e) => exprComplexity e

/-- Complexity points contributed by a list of statements. -/
def stmtListComplexity : List Stmt → Nat
  | [] => 0
  | s :: l => stmtComplexity s + stmtListComplexity l

end

/-- `CodeAnalyzer._calculate_complexity(tree)` for a parsed module. -/
def calculate_complexity (m : Module) : Nat :=
  stmtListComplexity m.body

/-! ### `CodeAnalyzer._count_docstrings` and node counts -/

/-- Truthiness of `ast.get_docstring(node)`: the docstring is cleaned with
`inspect.cleandoc`, whose result is non-empty exactly when the literal
contains some non-whitespace character. -/
def docstringTruthy (s : List Char) : Bool :=
  s.any (fun c => !pyIsSpace c)

/-- Whether `ast.get_docstring` finds a (truthy) docstring in a node body:
the first body statement must be an expression statement whose value is a
string constant. -/
def bodyHasDocstring : List Stmt → Bool
  | .exprStmt (.strConst s) :: _ => docstringTruthy s
  | _ => false

/-- `isinstance(node, ast.FunctionDef)`. -/
def isFunctionDef : Stmt → Bool
  | .functionDef _ _ => true
  | _ => false

/-- `isinstance(node, ast.ClassDef)`. -/
def isClassDef : Stmt → Bool
  | .classDef _ _ => true
  | _ => false

/-- `isinstance(node, (ast.Import, ast.ImportFrom))`. -/
def isImportNode : Stmt → Bool
  | .importStmt _ => true
  | .importFrom _ _ => true
  | _ => false

/-- A `FunctionDef` or `ClassDef` statement node carrying a docstring, as
tested by `_count_docstrings` for the non-`Module` cases. -/
def stmtHasDocstring : Stmt → Bool
  | .functionDef _ b => bodyHasDocstring b
  | .classDef _ b => bodyHasDocstring b
  | _ => false

/-- `len([node for node in ast.walk(tree) if isinstance(node, ast.FunctionDef)])`. -/
def countFunctions (m : Module) : Nat :=
  (walkBFS m.body).countP isFunctionDef

/-- `len([node for node in ast.walk(tree) if isinstance(node, ast.ClassDef)])`. -/
def countClasses (m : Module) : Nat :=
  (walkBFS m.body).countP isClassDef

/-- `len([... if isinstance(node, (ast.Import, ast.ImportFrom))])`. -/
def countImports (m : Module) : Nat :=
  (walkBFS m.body).countP isImportNode

/-- `CodeAnalyzer._count_docstrings(tree)`: one count per `FunctionDef`,
`ClassDef` or `Module` node whose `ast.get_docstring` is truthy.  `ast.walk`
starts at the `Module` root, the only `Module` node of the tree; the
statement nodes are enumerated by `walkBFS`. -/
def count_docstrings (m : Module) : Nat :=
  (if bodyHasDocstring m.body then 1 else 0) +
    (walkBFS m.body).countP stmtHasDocstring

/-- The test `line.strip().startswith("#")` of `_count_comments`. -/
def isCommentLine (l : List Char) : Bool :=
  match pyStrip l with
  | '#' :: _ => true
  | _ => false

/-- `CodeAnalyzer._count_comments(code_text)`. -/
def count_comments (code_text : List Char) : Nat :=
  ((pySplitlines code_text).filter isCommentLine).length

/-! ### `CodeAnalyzer.analyze_code` -/

/-- The metrics dictionary built by `analyze_code` when the parse succeeds. -/
structure Metrics where
  loc : Nat
  functions : Nat
  classes : Nat
  imports : Nat
  comments : Nat
  docstrings : Nat
  complexity : Nat
  deriving Repr, DecidableEq

/-- `CodeAnalyzer.analyze_code(code_text)`.  The call `ast.parse(code_text)`
is the external CPython parser; its outcome is supplied as `tree`
(`some` = the source is syntactically valid, `none` = the parse raised a
`SyntaxError`).  On any exception the `except Exception` branch prints and
returns the empty dict `{}` — a mapping holding no keys at all — modelled as
`none`; no exception escapes to the caller. -/
def analyze_code (code_text : List Char) (tree : Option Module) : Option Metrics :=
  tree.map fun t =>
    { loc := (pySplitlines code_text).length
      functions := countFunctions t
      classes := countClasses t
      imports := countImports t
      comments := count_comments code_text
      docstrings := count_docstrings t
      complexity := calculate_complexity t }

end MyIDLE

namespace MyIDLE

/-! ### `VSCodeLikeIDE.show_educational_hints`

The method reads the caret line's text and the whole buffer, parses the
buffer, and builds `hints`: an `if`/`elif` chain appends at most one
line-shape hint for the caret line, a loop over `ast.walk(tree)` appends one
complexity hint per large function, and a best-practices hint is appended
unconditionally; a parse failure is swallowed (`except Exception: pass`)
before any hint is appended, leaving `hints` empty. -/

/-- The function-definition tip appended for a line starting with `def `. -/
def funcTip : String :=
  "🎓 Function Tips:\n- Add a docstring to describe the function\n- Consider adding type hints\n- Add parameter descriptions"

/-- The class-definition tip. -/
def classTip : String :=
  "🎓 Class Tips:\n- Add a class docstring\n- Consider inheritance relationships\n- Add proper initialization"

/-- The loop tip. -/
def loopTip : String :=
  "🎓 Loop Tips:\n- Consider loop efficiency\n- Add a break condition\n- Handle edge cases"

/-- The exception-handling tip. -/
def exceptionTip : String :=
  "🎓 Exception Tips:\n- Catch specific exceptions\n- Add proper error messages\n- Consider cleanup in finally"

/-- The import tip. -/
def importTip : String :=
  "🎓 Import Tips:\n- Group related imports\n- Consider using specific imports\n- Check for unused imports"

/-- The variable-assignment tip. -/
def variableTip : String :=
  "🎓 Variable Tips:\n- Use descriptive names\n- Consider type hints\n- Initialize properly"

/-- The conditional tip. -/
def conditionTip : String :=
  "🎓 Condition Tips:\n- Check edge cases\n- Consider else cases\n- Simplify complex conditions"

/-- The function-call tip. -/
def callTip : String :=
  "🎓 Function Call Tips:\n- Check parameter types\n- Handle return values\n- Consider error cases"

/-- The structural complexity tip appended per oversized function. -/
def complexityTip : String :=
  "🎓 Complexity Tips:\n- Consider breaking down large functions\n- Extract reusable components\n- Add more documentation"

/-- The best-practices tip appended unconditionally at the end. -/
def bestPracticesTip : String :=
  "🎓 Best Practices:\n- Follow PEP 8 style guide\n- Write clear comments\n- Use meaningful names"

/-- The `if`/`elif` chain of `show_educational_hints`, operating on the text
of the caret line; at most one branch appends its hint. -/
def lineShapeHint (line : List Char) : Option String :=
  if ("def ".toList).isPrefixOf (pyStrip line) then some funcTip
  else if ("class ".toList).isPrefixOf (pyStrip line) then some classTip
  else if containsSub "for ".toList line || containsSub "while ".toList line then
    some loopTip
  else if containsSub "try".toList line then some exceptionTip
  else if containsSub "import ".toList line then some importTip
  else if containsSub "=".toList line && !containsSub "==".toList line then
    some variableTip
  else if containsSub "if ".toList line then some conditionTip
  else if containsSub "(".toList line && !containsSub "def ".toList line then
    some callTip
  else none

/-- `isinstance(node, ast.FunctionDef) and len(node.body) > 20`. -/
def isOffendingFunction : Stmt → Bool
  | .functionDef _ b => decide (b.length > 20)
  | _ => false

/-- The `for node in ast.walk(tree)` loop: one complexity hint appended per
oversized function definition, in the walk's breadth-first order. -/
def structuralHints (m : Module) : List String :=
  (walkBFS m.body).filterMap
    (fun s => if isOffendingFunction s then some complexityTip else none)

/-- The hint list built when the parse succeeds: line-shape chain result,
then the structural loop's hints, then the best-practices hint. -/
def educationalHints (m : Module) (line : List Char) : List String :=
  (lineShapeHint line).toList ++ structuralHints m ++ [bestPracticesTip]

/-- `show_educational_hints`, with the outcome of `ast.parse` explicit: a
parse failure is caught before any hint is appended, so the hint list stays
empty. -/
def show_educational_hints (tree : Option Module) (line : List Char) :
    List String :=
  match tree with
  | none => []
  | some m => educationalHints m line

end MyIDLE

namespace MyIDLE

/-! ### The completion session

`show_completions` asks the external jedi provider for candidates at the
caret, and with a non-empty result builds the popup listbox (provider order
preserved) and selects its first row; `_navigate_completions` moves the
listbox selection; `insert_completion` splices the selected candidate into
the caret line. -/

/-- A completion candidate as returned by the provider, with the fields the
session reads: `name` and `type` feed the display row, `complete` is the
text spliced into the buffer on acceptance (the specification's
`insertText`). -/
structure Candidate where
  name : String
  type : String
  complete : List Char
  deriving Repr, DecidableEq

/-- The popup state materialised by `show_completions`: the stored
`current_completions` list (one listbox row per candidate, same order) and
the listbox's current selection. -/
structure CompletionPopup where
  completions : List Candidate
  selection : Option Nat
  deriving Repr, DecidableEq

/-- `show_completions` after the provider returned `completions`: with no
candidates the method returns before creating any window; otherwise the
popup lists the candidates in the provider's order and selects index 0. -/
def show_completions (completions : List Candidate) : Option CompletionPopup :=
  if completions.isEmpty then none
  else some { completions := completions, selection := some 0 }

/-- The four keys handled by `_navigate_completions` (`Prior` is Page Up,
`Next` is Page Down). -/
inductive NavKey where
  | up
  | down
  | pageUp
  | pageDown
  deriving Repr, DecidableEq

/-- The new selection index computed by `_navigate_completions` on a listbox
of `size` rows with current selection `cur`, using Python `max`/`min` over
`int`. -/
def navigateIndex (size cur : Nat) (k : NavKey) : Int :=
  match k with
  | .up => max 0 ((cur : Int) - 1)
  | .down => min ((size : Int) - 1) ((cur : Int) + 1)
  | .pageUp => max 0 ((cur : Int) - 5)
  | .pageDown => min ((size : Int) - 1) ((cur : Int) + 5)

/-- `_navigate_completions` acting on the popup: with no current selection
the first row is selected and the method returns; otherwise the selection
is cleared and re-set to the computed index (non-negative whenever the
listbox is non-empty, hence the `Int.toNat`). -/
def navigate (p : CompletionPopup) (k : NavKey) : CompletionPopup :=
  match p.selection with
  | none => { p with selection := some 0 }
  | some cur =>
    { p with selection := some (navigateIndex p.completions.length cur k).toNat }

/-- The scan loop of `insert_completion` locating the start of the word
being completed: `ws` starts at `len(line)` and the loop walks `i` from
`len(line) - 1` downwards; at the first character that is neither
alphanumeric nor an underscore it breaks, otherwise `ws` becomes `i`.  The
first argument is the portion of the line already walked, reversed, so its
head is the character inspected next. -/
def wordStartAux : List Char → Nat → Nat
  | [], ws => ws
  | c :: rest, ws => if isIdentChar c then wordStartAux rest (ws - 1) else ws

/-- `word_start` as computed by `insert_completion` from `line`, the text
between the line start and the caret. -/
def word_start (line : List Char) : Nat :=
  wordStartAux line.reverse line.length

/-- The text replacement performed on acceptance, in the specification's
vocabulary: on (1-indexed) line `line`, the (0-indexed) column range
`[startColumn, endColumn)` is replaced by `insertText`. -/
structure ReplacementSpan where
  line : Nat
  startColumn : Nat
  endColumn : Nat
  insertText : List Char
  deriving Repr, DecidableEq

/-- The editor state read by `insert_completion`: the caret position
(1-indexed line, 0-indexed column) and the caret line's full text. -/
structure EditorLine where
  lineNo : Nat
  caretCol : Nat
  lineText : List Char
  deriving Repr, DecidableEq

/-- Result of one `insert_completion` call: the two guard paths (`no
completion list`, `no selection`) return with no effect at all; the main
path performs the splice and reports the replaced span together with the
caret line's new text. -/
inductive AcceptOutcome where
  | ignored
  | accepted (span : ReplacementSpan) (newLine : List Char)
  deriving Repr, DecidableEq

/-- `insert_completion`: returns silently when no completion listbox exists
or when nothing is selected; otherwise it reads the line from column 0 to
the caret, computes `word_start`, deletes `[word_start, caret)` and inserts
the selected candidate's `complete` text at `word_start`.  (The listbox
selection is always below `len(current_completions)`; the `getD` default is
never reached.) -/
def insert_completion (popup : Option CompletionPopup) (ed : EditorLine) :
    AcceptOutcome :=
  match popup with
  | none => .ignored
  | some p =>
    match p.selection with
    | none => .ignored
    | some sel =>
      let comp := p.completions.getD sel ⟨ "", "", [] ⟩
      let lineToCaret := ed.lineText.take ed.caretCol
      let ws := word_start lineToCaret
      .accepted
        ⟨ ed.lineNo, ws, ed.caretCol, comp.complete ⟩
        (ed.lineText.take ws ++ comp.complete ++ ed.lineText.drop ed.caretCol)

end MyIDLE

namespace MyIDLE

/-! ### Tree surgery for the complexity-monotonicity property

`InsStmt t s s'` holds when `s'` is `s` with the single statement `t`
inserted at some position directly inside the body of a function definition
occurring in `s`, at any nesting depth; `InsList t l l'` lifts this through
a list of statements.  Nothing else is added, moved or removed. -/

mutual

inductive InsStmt (t : Stmt) : Stmt → Stmt → Prop where
  | atFunc (n : String) (b₁ b₂ : List Stmt) :
      InsStmt t (.functionDef n (b₁ ++ b₂)) (.functionDef n (b₁ ++ t :: b₂))
  | inFunc (n : String) {b b' : List Stmt} :
      InsList t b b' → InsStmt t (.functionDef n b) (.functionDef n b')
  | inClass (n : String) {b b' : List Stmt} :
      InsList t b b' → InsStmt t (.classDef n b) (.classDef n b')
  | ifBody (c : Expr) {b b' : List Stmt} (e : List Stmt) :
      InsList t b b' → InsStmt t (.ifStmt c b e) (.ifStmt c b' e)
  | ifElse (c : Expr) (b : List Stmt) {e e' : List Stmt} :
      InsList t e e' → InsStmt t (.ifStmt c b e) (.ifStmt c b e')
  | whileBody (c : Expr) {b b' : List Stmt} :
      InsList t b b' → InsStmt t (.whileStmt c b) (.whileStmt c b')
  | forBody (tg it : Expr) {b b' : List Stmt} (e : List Stmt) :
      InsList t b b' → InsStmt t (.forStmt tg it b e) (.forStmt tg it b' e)
  | forElse (tg it : Expr) (b : List Stmt) {e e' : List Stmt} :
      InsList t e e' → InsStmt t (.forStmt tg it b e) (.forStmt tg it b e')
  | tryBody {b b' : List Stmt} (h e f : List Stmt) :
      InsList t b b' → InsStmt t (.tryStmt b h e f) (.tryStmt b' h e f)
  | tryHandlers (b : List Stmt) {h h' : List Stmt} (e f : List Stmt) :
      InsList t h h' → InsStmt t (.tryStmt b h e f) (.tryStmt b h' e f)
  | tryElse (b h : List Stmt) {e e' : List Stmt} (f : List Stmt) :
      InsList t e e' → InsStmt t (.tryStmt b h e f) (.tryStmt b h e' f)
  | tryFinal (b h e : List Stmt) {f f' : List Stmt} :
      InsList t f f' → InsStmt t (.tryStmt b h e f) (.tryStmt b h e f')
  | handlerBody {b b' : List Stmt} :
      InsList t b b' → InsStmt t (.exceptHandler b) (.exceptHandler b')
  | withBody (i : List Expr) {b b' : List Stmt} :
      InsList t b b' → InsStmt t (.withStmt i b) (.withStmt i b')

inductive InsList (t : Stmt) : List Stmt → List Stmt → Prop where
  | head {s s' : Stmt} (l : List Stmt) : InsStmt t s s' → InsList t (s :: l) (s' :: l)
  | tail (s : Stmt) {l l' : List Stmt} : InsList t l l' → InsList t (s :: l) (s :: l')

end

/-- `m'` arises from the module `m` by inserting the single statement `t`
into the body of one of its function definitions. -/
def InsModule (t : Stmt) (m m' : Module) : Prop :=
  InsList t m.body m'.body

/-- The branching statement forms named by the complexity description:
conditional, loop (both forms), exception handler, try, with, assert. -/
def isBranchingStmt : Stmt → Bool
  | .ifStmt _ _ _ => true
  | .whileStmt _ _ => true
  | .forStmt _ _ _ _ => true
  | .tryStmt _ _ _ _ => true
  | .exceptHandler _ => true
  | .withStmt _ _ => true
  | .assertStmt _ => true
  | _ => false

/-! ### Specification-side characterisations

The following definitions restate, in the specification's vocabulary, what
the hint chain and the navigation steps are claimed to compute; the claim
theorems compare them with the code-derived definitions above. -/

/-- The line-shape rule table exactly as the specification orders it:
function-def → class-def → loop → exception → import → plain assignment →
conditional → call; each entry pairs an applicability predicate with its
message. -/
def lineShapeRules : List ((List Char → Bool) × String) :=
  [ (fun l => ("def ".toList).isPrefixOf (pyStrip l), funcTip),
    (fun l => ("class ".toList).isPrefixOf (pyStrip l), classTip),
    (fun l => containsSub "for ".toList l || containsSub "while ".toList l, loopTip),
    (fun l => containsSub "try".toList l, exceptionTip),
    (fun l => containsSub "import ".toList l, importTip),
    (fun l => containsSub "=".toList l && !containsSub "==".toList l, variableTip),
    (fun l => containsSub "if ".toList l, conditionTip),
    (fun l => containsSub "(".toList l && !containsSub "def ".toList l, callTip) ]

/-- First-match selection over an ordered rule table: the first rule whose
predicate holds contributes its message, later rules contribute nothing. -/
def firstMatchingRule (rules : List ((List Char → Bool) × String))
    (l : List Char) : Option String :=
  match rules with
  | [] => none
  | r :: rest => if r.1 l then some r.2 else firstMatchingRule rest l

/-- The eight line-shape messages. -/
def lineShapeMessages : List String :=
  lineShapeRules.map Prod.snd

/-- The oversized function definitions of a module in document (preorder)
order. -/
def offendingFunctionsDoc (m : Module) : List Stmt :=
  (walkPreList m.body).filter isOffendingFunction

/-- The per-key selection step claimed by the specification: down/up move by
one, page down/up by five. -/
def navDelta : NavKey → Int
  | .up => -1
  | .down => 1
  | .pageUp => -5
  | .pageDown => 5

end MyIDLE

namespace MyIDLE

/-! ## Helper lemmas -/

theorem stmtListSize_append (l₁ l₂ : List Stmt) :
    stmtListSize (l₁ ++ l₂) = stmtListSize l₁ + stmtListSize l₂ := by
  induction l₁ with
  | nil => simp [stmtListSize]
  | cons s l ih => simp [stmtListSize, ih]; omega

theorem walkPreList_append (l₁ l₂ : List Stmt) :
    walkPreList (l₁ ++ l₂) = walkPreList l₁ ++ walkPreList l₂ := by
  induction l₁ with
  | nil => simp [walkPreList]
  | cons s l ih => simp [walkPreList, ih]

theorem walkPre_eq (s : Stmt) :
    walkPre s = s :: walkPreList (childStmts s) := by
  cases s <;> simp [walkPre, childStmts, walkPreList, walkPreList_append]

/-- Breadth-first and document-order enumeration visit the same nodes the
same number of times: every per-node count is order-independent. -/
theorem walkBFS_countP (p : Stmt → Bool) (l : List Stmt) :
    (walkBFS l).countP p = (walkPreList l).countP p := by
  induction l using walkBFS.induct with
  | case1 => simp [walkBFS, walkPreList]
  | case2 s rest ih =>
    rw [walkBFS, walkPreList, List.countP_cons, ih, walkPreList_append,
      List.countP_append, List.countP_append, walkPre_eq, List.countP_cons]
    omega

theorem filterMap_if_const {α β : Type} (p : α → Bool) (c : β) (l : List α) :
    l.filterMap (fun x => if p x then some c else none) =
      List.replicate (l.countP p) c := by
  induction l with
  | nil => simp
  | cons x l ih =>
    by_cases h : p x <;> simp [h, ih, List.countP_cons, List.replicate_succ]

theorem countP_le_countP_add {α : Type} (p q r : α → Bool) (l : List α)
    (h : ∀ a, p a = true → q a = true ∨ r a = true) :
    l.countP p ≤ l.countP q + l.countP r := by
  induction l with
  | nil => simp
  | cons x l ih =>
    simp only [List.countP_cons]
    split_ifs with h1 h2 h3
    all_goals try omega
    all_goals rcases h x h1 with hh | hh <;> simp_all

/-- The hints appended by the structural loop form a constant block: one
copy of the complexity tip per oversized function. -/
theorem structuralHints_eq (m : Module) :
    structuralHints m =
      List.replicate ((walkPreList m.body).countP isOffendingFunction)
        complexityTip := by
  rw [structuralHints, filterMap_if_const, walkBFS_countP]

theorem stmtListComplexity_append (l₁ l₂ : List Stmt) :
    stmtListComplexity (l₁ ++ l₂) =
      stmtListComplexity l₁ + stmtListComplexity l₂ := by
  induction l₁ with
  | nil => simp [stmtListComplexity]
  | cons s l ih => simp [stmtListComplexity, ih]; omega

mutual

/-- Inserting `t` into a function body inside `s` adds exactly the
complexity of `t`'s own subtree to the complexity of `s`. -/
theorem insStmt_complexity {t s s' : Stmt} (h : InsStmt t s s') :
    stmtComplexity s' = stmtComplexity s + stmtComplexity t := by
  cases h with
  | atFunc n b₁ b₂ =>
    simp [stmtComplexity, stmtListComplexity_append, stmtListComplexity]
    omega
  | inFunc n h => have := insList_complexity h; simp [stmtComplexity, this]; try omega
  | inClass n h => have := insList_complexity h; simp [stmtComplexity, this]; try omega
  | ifBody c e h => have := insList_complexity h; simp [stmtComplexity, this]; try omega
  | ifElse c b h => have := insList_complexity h; simp [stmtComplexity, this]; try omega
  | whileBody c h => have := insList_complexity h; simp [stmtComplexity, this]; try omega
  | forBody tg it e h =>
    have := insList_complexity h; simp [stmtComplexity, this]; try omega
  | forElse tg it b h =>
    have := insList_complexity h; simp [stmtComplexity, this]; try omega
  | tryBody hs e f h =>
    have := insList_complexity h; simp [stmtComplexity, this]; try omega
  | tryHandlers b e f h =>
    have := insList_complexity h; simp [stmtComplexity, this]; try omega
  | tryElse b hs f h =>
    have := insList_complexity h; simp [stmtComplexity, this]; try omega
  | tryFinal b hs e h =>
    have := insList_complexity h; simp [stmtComplexity, this]; try omega
  | handlerBody h => have := insList_complexity h; simp [stmtComplexity, this]; try omega
  | withBody i h => have := insList_complexity h; simp [stmtComplexity, this]; try omega

/-- List version of `insStmt_complexity`. -/
theorem insList_complexity {t : Stmt} {l l' : List Stmt} (h : InsList t l l') :
    stmtListComplexity l' = stmtListComplexity l + stmtComplexity t := by
  cases h with
  | head l h => have := insStmt_complexity h; simp [stmtListComplexity, this]; try omega
  | tail s h => have := insList_complexity h; simp [stmtListComplexity, this]; try omega

end

theorem wordStartAux_le (rev : List Char) : ∀ ws : Nat, wordStartAux rev ws ≤ ws := by
  induction rev with
  | nil => intro ws; simp [wordStartAux]
  | cons c rest ih =>
    intro ws
    by_cases h : isIdentChar c
    · simp [wordStartAux, h]
      exact le_trans (ih (ws - 1)) (Nat.sub_le ws 1)
    · simp [wordStartAux, h]

theorem word_start_le (l : List Char) : word_start l ≤ l.length := by
  simpa [word_start] using wordStartAux_le l.reverse l.length

end MyIDLE

namespace MyIDLE

theorem pySplitNl_ne_nil (l : List Char) : pySplitNl l ≠ [] := by
  cases l with
  | nil => simp [pySplitNl]
  | cons c rest =>
    simp only [pySplitNl]
    split
    · simp
    · split <;> simp

theorem pySplitNl_cons_length (c : Char) (l : List Char) (h : ¬ c = '\n') :
    (pySplitNl (c :: l)).length = (pySplitNl l).length := by
  simp only [pySplitNl]
  rw [if_neg h]
  cases hr : pySplitNl l with
  | nil => exact absurd hr (pySplitNl_ne_nil l)
  | cons a t => simp

theorem pySplitlinesAux_length (text : List Char) :
    ∀ acc : List Char, (∀ c ∈ text, isLineBreakChar c = true → c = '\n') →
      (pySplitlinesAux acc text).length +
        (if text = [] then (if acc = [] then 1 else 0)
         else if text.getLast? = some '\n' then 1 else 0) =
      (pySplitNl text).length := by
  induction text with
  | nil =>
    intro acc _
    by_cases hacc : acc = [] <;> simp [pySplitlinesAux, pySplitNl, hacc]
  | cons c rest ih =>
    intro acc h
    have hcr : ¬ (c = '\r' ∧ rest.head? = some '\n') := by
      rintro ⟨hc, -⟩
      subst hc
      have h2 := h '\r' (by simp) (by decide)
      exact absurd h2 (by decide)
    by_cases hc : c = '\n'
    · subst hc
      simp only [pySplitlinesAux, if_neg hcr, if_pos (by decide : isLineBreakChar '\n' = true)]
      cases rest with
      | nil => simp [pySplitlinesAux, pySplitNl]
      | cons d rest2 =>
        have hIH := ih [] (fun x hx hb => h x (by simp [hx]) hb)
        rw [if_neg (List.cons_ne_nil d rest2)] at hIH
        rw [if_neg (List.cons_ne_nil '\n' (d :: rest2)), List.getLast?_cons_cons,
          pySplitNl.eq_2, if_pos rfl]
        simp only [List.length_cons]
        omega
    · have hlb : isLineBreakChar c = false := by
        by_cases hb : isLineBreakChar c = true
        · exact absurd (h c (by simp) hb) hc
        · simpa using hb
      simp only [pySplitlinesAux, if_neg hcr, hlb, Bool.false_eq_true, if_false]
      have hIH := ih (c :: acc) (fun x hx hb => h x (by simp [hx]) hb)
      rw [pySplitNl_cons_length c rest hc]
      cases rest with
      | nil =>
        simp only [pySplitNl] at hIH ⊢
        simp only [List.getLast?_singleton]
        simp only [if_neg (List.cons_ne_nil c []), if_pos rfl,
          if_neg (List.cons_ne_nil c acc)] at hIH ⊢
        simpa [Option.some_inj, hc] using hIH
      | cons d rest2 =>
        simp only [if_neg (List.cons_ne_nil d rest2)] at hIH
        simp only [if_neg (List.cons_ne_nil c (d :: rest2)), List.getLast?_cons_cons]
        omega

/-- For sources whose only line terminator is the newline character,
`len(s.splitlines())` differs from `len(s.split("\n"))` exactly by one when
`s` is empty or ends in a newline, and not otherwise. -/
theorem pySplitlines_length_eq (text : List Char)
    (h : ∀ c ∈ text, isLineBreakChar c = true → c = '\n') :
    (pySplitlines text).length +
      (if text = [] ∨ text.getLast? = some '\n' then 1 else 0) =
      (pySplitNl text).length := by
  have hmain := pySplitlinesAux_length text [] h
  cases text with
  | nil => simpa [pySplitlines] using hmain
  | cons c rest => simpa [pySplitlines] using hmain

end MyIDLE

namespace MyIDLE

/-! ## Claim theorems -/

/-- C1: in a populated completion session — the selection addresses a
candidate of the list — `insert_completion` yields exactly the replacement
span `(line = anchor.line, startColumn = word_start, endColumn =
anchor.column, insertText = candidates[selectedIndex].complete)` with the
caret line rewritten only between those columns (no other line touched),
and the word start computed by the scan never exceeds the anchor column.
`C1_witness` instantiates it on the line `"result = comp"` with caret
column 13 and candidate text `"compute_value"`, producing the line
`"result = compute_value"`. -/
theorem C1_accept_span (p : CompletionPopup) (ed : EditorLine) (sel : Nat)
    (hsel : p.selection = some sel) (hlt : sel < p.completions.length) :
    insert_completion (some p) ed =
      .accepted
        { line := ed.lineNo
          startColumn := word_start (ed.lineText.take ed.caretCol)
          endColumn := ed.caretCol
          insertText := (p.completions[sel]).complete }
        (ed.lineText.take (word_start (ed.lineText.take ed.caretCol)) ++
          (p.completions[sel]).complete ++ ed.lineText.drop ed.caretCol) ∧
      word_start (ed.lineText.take ed.caretCol) ≤ ed.caretCol := by
  constructor
  · simp [insert_completion, hsel, List.getElem?_eq_getElem hlt]
  · calc word_start (ed.lineText.take ed.caretCol)
        ≤ (ed.lineText.take ed.caretCol).length := word_start_le _
      _ ≤ ed.caretCol := by simp

/-- C1 witness: the session on buffer line `"result = comp"`, caret column
13, accepting the candidate that inserts `"compute_value"`: the replacement
span is `[9, 13)` on the caret line and the line becomes
`"result = compute_value"`. -/
theorem C1_witness :
    insert_completion
        (some ⟨ [ ⟨ "compute_value", "function",
            [ 'c', 'o', 'm', 'p', 'u', 't', 'e', '_', 'v', 'a', 'l', 'u', 'e' ] ⟩ ],
          some 0 ⟩)
        ⟨ 1, 13,
          [ 'r', 'e', 's', 'u', 'l', 't', ' ', '=', ' ', 'c', 'o', 'm', 'p' ] ⟩ =
      .accepted
        ⟨ 1, 9, 13,
          [ 'c', 'o', 'm', 'p', 'u', 't', 'e', '_', 'v', 'a', 'l', 'u', 'e' ] ⟩
        [ 'r', 'e', 's', 'u', 'l', 't', ' ', '=', ' ', 'c', 'o', 'm', 'p', 'u',
          't', 'e', '_', 'v', 'a', 'l', 'u', 'e' ] ∧
      (9 : Nat) ≤ 13 := by
  have h := C1_accept_span
    ⟨ [ ⟨ "compute_value", "function",
        [ 'c', 'o', 'm', 'p', 'u', 't', 'e', '_', 'v', 'a', 'l', 'u', 'e' ] ⟩ ],
      some 0 ⟩
    ⟨ 1, 13,
      [ 'r', 'e', 's', 'u', 'l', 't', ' ', '=', ' ', 'c', 'o', 'm', 'p' ] ⟩
    0 rfl (by decide)
  refine ⟨ ?_, by decide ⟩
  rw [h.1]
  decide

/-- C2 counterexample: for the syntactically invalid source `"("` the
`except` branch of `analyze_code` returns the empty dict `{}` — a mapping
with no entries — not a metrics record carrying zero counts; reading any
count from the result is impossible rather than yielding 0. -/
theorem C2_counterexample :
    analyze_code [ '(' ] none ≠
      some { loc := 0, functions := 0, classes := 0, imports := 0,
             comments := 0, docstrings := 0, complexity := 0 } := by
  simp [analyze_code]

/-- C2 (amended): for every syntactically invalid source the analysis
returns the empty mapping — no metrics record at all — and no exception
reaches the caller (`except Exception` catches the parse error). -/
theorem C2_empty_on_failure (code_text : List Char) :
    analyze_code code_text none = none := rfl

/-- C3 counterexample: for the syntactically valid source `"x = 1\n"`,
`linesOfCode` is `len("x = 1\n".splitlines()) = 1`, but splitting on the
newline character yields 2 elements (`["x = 1", ""]`): the two counts
differ on any source ending in a newline (and on the empty source). -/
theorem C3_counterexample :
    ¬ ((analyze_code [ 'x', ' ', '=', ' ', '1', '\n' ]
          (some ⟨ [ .assign (.name "x") (.numConst 1) ] ⟩)).map Metrics.loc =
        some (pySplitNl [ 'x', ' ', '=', ' ', '1', '\n' ]).length) := by
  have hs : pySplitlines [ 'x', ' ', '=', ' ', '1', '\n' ] =
      [ [ 'x', ' ', '=', ' ', '1' ] ] := by
    simp +decide [pySplitlines, pySplitlinesAux]
  simp [analyze_code, hs]
  decide

/-- C3 (amended): for every syntactically valid source, `linesOfCode`
equals `len(s.splitlines())` — the raw line count in which a trailing line
terminator contributes no extra empty line; consequently, for sources whose
only line terminator is `"\n"`, it equals the number of elements obtained by
splitting on the newline character minus one exactly when the source is
empty or ends in a newline. -/
theorem C3_loc_splitlines (text : List Char) (m : Module) (mets : Metrics)
    (ha : analyze_code text (some m) = some mets)
    (hnl : ∀ c ∈ text, isLineBreakChar c = true → c = '\n') :
    mets.loc = (pySplitlines text).length ∧
      mets.loc + (if text = [] ∨ text.getLast? = some '\n' then 1 else 0) =
        (pySplitNl text).length := by
  simp only [analyze_code, Option.map_some', Option.some.injEq] at ha
  subst ha
  exact ⟨ rfl, pySplitlines_length_eq text hnl ⟩

/-- C3 witness: the amended claim evaluated on `"x = 1\n"`:
`linesOfCode = 1` while splitting on the newline yields 2 elements. -/
theorem C3_witness : (pySplitNl [ 'x', ' ', '=', ' ', '1', '\n' ]).length = 2 := by
  have hs : pySplitlines [ 'x', ' ', '=', ' ', '1', '\n' ] =
      [ [ 'x', ' ', '=', ' ', '1' ] ] := by
    simp +decide [pySplitlines, pySplitlinesAux]
  have h := C3_loc_splitlines [ 'x', ' ', '=', ' ', '1', '\n' ]
    ⟨ [ .assign (.name "x") (.numConst 1) ] ⟩
    { loc := 1, functions := 0, classes := 0, imports := 0, comments := 0,
      docstrings := 0, complexity := 0 }
    (by
      have hw : walkBFS [ .assign (.name "x") (.numConst 1) ] =
          [ .assign (.name "x") (.numConst 1) ] := by
        simp [walkBFS, childStmts]
      simp [analyze_code, hs, countFunctions, countClasses, countImports,
        count_docstrings, count_comments, calculate_complexity, hw]
      decide)
    (by decide)
  have h2 := h.2
  simp at h2
  omega

end MyIDLE

namespace MyIDLE

/-- C4: the hint chain produces at most one line-shape hint per call, and
the one produced is exactly the first applicable rule of the ordered table
function-def → class-def → loop → exception → import → plain assignment →
conditional → call; once a rule matches, no later line-shape rule
contributes (the remaining hints are structural or best-practices ones). -/
theorem C4_line_shape_first_match (m : Module) (line : List Char) :
    lineShapeHint line = firstMatchingRule lineShapeRules line ∧
    (educationalHints m line).countP
        (fun h => decide (h ∈ lineShapeMessages)) ≤ 1 := by
  constructor
  · rfl
  · have hcx : ¬ (complexityTip ∈ lineShapeMessages) := by decide
    have hbp : ¬ (bestPracticesTip ∈ lineShapeMessages) := by decide
    rw [educationalHints, List.countP_append, List.countP_append]
    have h1 : (lineShapeHint line).toList.countP
        (fun h => decide (h ∈ lineShapeMessages)) ≤ 1 := by
      cases lineShapeHint line with
      | none => simp
      | some t => exact le_trans (List.countP_le_length _) (by simp)
    have h2 : (structuralHints m).countP
        (fun h => decide (h ∈ lineShapeMessages)) = 0 := by
      rw [structuralHints_eq, List.countP_eq_zero]
      intro a ha
      rw [List.eq_of_mem_replicate ha]
      simpa using hcx
    have h3 : ([bestPracticesTip] : List String).countP
        (fun h => decide (h ∈ lineShapeMessages)) = 0 := by
      simpa using hbp
    omega

/-- C5: for every parsed source and caret line, the hint list is exactly
the optional line-shape hint, then one structural complexity hint per
function definition whose body exceeds 20 statements — as many hints, in
the same positions, as the offending functions taken in document order —
then the best-practices hint. -/
theorem C5_structural_hints (m : Module) (line : List Char) :
    educationalHints m line =
      (lineShapeHint line).toList ++
        (offendingFunctionsDoc m).map (fun _ => complexityTip) ++
        [bestPracticesTip] := by
  rw [educationalHints, structuralHints_eq, offendingFunctionsDoc,
    List.map_const', List.countP_eq_length_filter]

/-- C6: for every syntactically valid source and caret line the hint list
is non-empty and its last element is the best-practices message. -/
theorem C6_last_best_practices (m : Module) (line : List Char) :
    show_educational_hints (some m) line ≠ [] ∧
      (show_educational_hints (some m) line).getLast? =
        some bestPracticesTip := by
  constructor
  · simp [show_educational_hints, educationalHints]
  · rw [show_educational_hints, educationalHints, List.getLast?_concat]

end MyIDLE

namespace MyIDLE

/-- C7: opening a session on a non-empty candidate list selects index 0;
every navigation key moves the selection by exactly +1 (down), −1 (up),
+5 (page down), −5 (page up), clamped into `[0, N−1]`; `N−1` repeated
down-navigations starting from the fresh session reach index `N−1`, and one
more leaves it there. -/
theorem C7_navigation (cands : List Candidate) (hne : cands ≠ []) :
    show_completions cands =
        some { completions := cands, selection := some 0 } ∧
      (∀ cur : Nat, cur < cands.length → ∀ k : NavKey,
        navigateIndex cands.length cur k =
          max 0 (min ((cands.length : Int) - 1) ((cur : Int) + navDelta k))) ∧
      ((fun p => navigate p .down)^[cands.length - 1]
          { completions := cands, selection := some 0 } =
        { completions := cands, selection := some (cands.length - 1) }) ∧
      navigate { completions := cands, selection := some (cands.length - 1) }
          .down =
        { completions := cands, selection := some (cands.length - 1) } := by
  have hlen : 1 ≤ cands.length := List.length_pos.mpr hne
  refine ⟨ ?_, ?_, ?_, ?_ ⟩
  · simp [show_completions, List.isEmpty_iff, hne]
  · intro cur hcur k
    cases k <;> simp [navigateIndex, navDelta] <;> omega
  · have key : ∀ j : Nat, j ≤ cands.length - 1 →
        (fun p => navigate p .down)^[j]
            { completions := cands, selection := some 0 } =
          { completions := cands, selection := some j } := by
      intro j
      induction j with
      | zero => intro _; simp
      | succ i ih =>
        intro hj
        rw [Function.iterate_succ_apply', ih (by omega)]
        simp [navigate, navigateIndex]
        omega
    exact key (cands.length - 1) le_rfl
  · simp [navigate, navigateIndex]
    omega

/-- C7 witness: a session over three candidates: two down-navigations reach
index 2 and a third stays at 2. -/
theorem C7_witness :
    ((fun p => navigate p .down)^[2]
        { completions :=
            [ ⟨ "a", "function", [ 'a' ] ⟩, ⟨ "b", "function", [ 'b' ] ⟩,
              ⟨ "c", "function", [ 'c' ] ⟩ ],
          selection := some 0 } =
      { completions :=
          [ ⟨ "a", "function", [ 'a' ] ⟩, ⟨ "b", "function", [ 'b' ] ⟩,
            ⟨ "c", "function", [ 'c' ] ⟩ ],
        selection := some 2 }) ∧
    navigate
        { completions :=
            [ ⟨ "a", "function", [ 'a' ] ⟩, ⟨ "b", "function", [ 'b' ] ⟩,
              ⟨ "c", "function", [ 'c' ] ⟩ ],
          selection := some 2 } .down =
      { completions :=
          [ ⟨ "a", "function", [ 'a' ] ⟩, ⟨ "b", "function", [ 'b' ] ⟩,
            ⟨ "c", "function", [ 'c' ] ⟩ ],
        selection := some 2 } := by
  have h := C7_navigation
    [ ⟨ "a", "function", [ 'a' ] ⟩, ⟨ "b", "function", [ 'b' ] ⟩,
      ⟨ "c", "function", [ 'c' ] ⟩ ] (by simp)
  exact ⟨ h.2.2.1, h.2.2.2 ⟩

/-- C8 counterexample: calling accept with no completion session at all
(the state set up by `setup_autocomplete`, before any `open`) is silently
ignored — `insert_completion` returns at the first guard, modifies nothing
and raises nothing; the program defines no `InvalidStateError` and no state
check that fails loudly. -/
theorem C8_counterexample :
    insert_completion none
        ⟨ 1, 13,
          [ 'r', 'e', 's', 'u', 'l', 't', ' ', '=', ' ', 'c', 'o', 'm', 'p' ] ⟩ =
      .ignored := rfl

/-- C8 (amended): whenever no completion listbox exists, or none of its
rows is selected, `insert_completion` returns silently with no effect on
the buffer: non-Populated states are ignored rather than surfaced as an
`InvalidStateError` (no such error exists in the program). -/
theorem C8_silent_ignore (popup : Option CompletionPopup) (ed : EditorLine)
    (h : popup = none ∨ ∃ p, popup = some p ∧ p.selection = none) :
    insert_completion popup ed = .ignored := by
  rcases h with rfl | ⟨ p, rfl, hsel ⟩
  · rfl
  · simp [insert_completion, hsel]

/-- C8 witness: the amended claim on a popup whose listbox has no selected
row. -/
theorem C8_witness :
    insert_completion
        (some ⟨ [ ⟨ "foo", "function", [ 'f', 'o', 'o' ] ⟩ ], none ⟩)
        ⟨ 1, 2, [ 'f', 'o' ] ⟩ = .ignored :=
  C8_silent_ignore _ _ (Or.inr ⟨ _, rfl, rfl ⟩)

/-- C9: inserting one branching statement (conditional, loop, exception
handler, try, with or assert) into the body of any function definition of a
source, removing nothing, never decreases the complexity metric. -/
theorem C9_complexity_monotone (t : Stmt) (m m' : Module)
    (_hb : isBranchingStmt t = true) (hins : InsModule t m m') :
    calculate_complexity m ≤ calculate_complexity m' := by
  have h := insList_complexity hins
  simp only [calculate_complexity]
  omega

/-- C9 witness: adding an `assert` to the body of function `f` raises the
complexity from 0 to 1 (in particular, does not decrease it). -/
theorem C9_witness :
    calculate_complexity ⟨ [ .functionDef "f" [ .passStmt ] ] ⟩ ≤
      calculate_complexity
        ⟨ [ .functionDef "f" [ .assertStmt (.name "x"), .passStmt ] ] ⟩ :=
  C9_complexity_monotone (.assertStmt (.name "x")) _ _ rfl
    (InsList.head [] (InsStmt.atFunc "f" [] [ .passStmt ]))

/-- C10: in every metrics record produced for a valid source, the docstring
count is bounded by the function count plus the class count plus one:
docstrings are counted at most once per `FunctionDef` node, `ClassDef`
node, and the single `Module` root. -/
theorem C10_docstring_bound (text : List Char) (m : Module) (mets : Metrics)
    (ha : analyze_code text (some m) = some mets) :
    mets.docstrings ≤ mets.functions + mets.classes + 1 := by
  simp only [analyze_code, Option.map_some', Option.some.injEq] at ha
  subst ha
  simp only [count_docstrings, countFunctions, countClasses]
  have h := countP_le_countP_add stmtHasDocstring isFunctionDef isClassDef
    (walkBFS m.body)
    (by
      intro a hp
      cases a <;> simp_all [stmtHasDocstring, isFunctionDef, isClassDef])
  by_cases hd : bodyHasDocstring m.body = true <;> simp [hd] <;> omega

/-- C10 witness: a module holding one documented function: 1 docstring ≤
1 function + 0 classes + 1 module. -/
theorem C10_witness : (1 : Nat) ≤ 1 + 0 + 1 := by
  have h := C10_docstring_bound []
    ⟨ [ .functionDef "f" [ .exprStmt (.strConst [ 'd' ]) ] ] ⟩
    { loc := 0, functions := 1, classes := 0, imports := 0, comments := 0,
      docstrings := 1, complexity := 0 }
    (by
      have hw : walkBFS [ .functionDef "f" [ .exprStmt (.strConst [ 'd' ]) ] ] =
          [ .functionDef "f" [ .exprStmt (.strConst [ 'd' ]) ],
            .exprStmt (.strConst [ 'd' ]) ] := by
        simp [walkBFS, childStmts]
      have hsl : pySplitlines ([] : List Char) = [] := by
        simp [pySplitlines, pySplitlinesAux]
      simp [analyze_code, countFunctions, countClasses, countImports,
        count_docstrings, count_comments, calculate_complexity, hw, hsl]
      decide)
  exact h

end MyIDLE
